import Mathlib

/-!
Verification development for the arm accessibility-audit report editor.

The definitions below are a shallow embedding of the TypeScript sources:
  - src/lib/types.ts               (data model: JiraConfig, Issue, Report)
  - src/lib/services/storage.ts    (ReportStorage: addIssue, updateIssue,
                                    deleteIssue, mergeReports, validateReport)
  - the scan-result component      (extractCriterionNumber)
  - jira-proxy/server.js           (POST /proxy handler)

Effects are made explicit: freshly generated identifiers (crypto.randomUUID)
and the current timestamp (new Date().toISOString()) are passed as
parameters; Date parsing (new Date(s).getTime()) is abstracted as a
parameter getTime : String -> Int; the network fetch of the relay is
abstracted as an Except-valued outcome parameter.  JavaScript Map and Set
are embedded as association lists and duplicate-free lists that preserve
insertion order, matching the iteration order of the originals.
-/

namespace Arm

/-- Tracker configuration, from the JiraConfig interface in types.ts.
The three credential fields are strings; projectKey is optional. -/
structure JiraConfig where
  baseUrl : String
  apiToken : String
  userEmail : String
  projectKey : Option String
deriving DecidableEq

/-- An audit issue, from the Issue interface in types.ts.
priority is 1, 2 or 3 in the source; it is embedded as a Nat. -/
structure Issue where
  id : String
  page : String
  criterionNumber : String
  title : String
  description : String
  location : String
  screenshot : Option String
  notes : String
  priority : Nat
  createdAt : String
  updatedAt : String
  jiraTicketUrl : Option String
  jiraTicketKey : Option String
deriving DecidableEq

/-- A report, from the Report interface in types.ts. -/
structure Report where
  id : String
  name : String
  pages : List String
  issues : List Issue
  createdAt : String
  updatedAt : String
  jiraConfig : Option JiraConfig
deriving DecidableEq

/-- The payload of addIssue: Omit of Issue over id, createdAt and updatedAt. -/
structure NewIssue where
  page : String
  criterionNumber : String
  title : String
  description : String
  location : String
  screenshot : Option String
  notes : String
  priority : Nat
  jiraTicketUrl : Option String
  jiraTicketKey : Option String
deriving DecidableEq

/-- A partial update of an Issue: every field optional, a present field
overrides the old value, as the object spread in updateIssue does. -/
structure IssueUpdate where
  id : Option String
  page : Option String
  criterionNumber : Option String
  title : Option String
  description : Option String
  location : Option String
  screenshot : Option (Option String)
  notes : Option String
  priority : Option Nat
  createdAt : Option String
  updatedAt : Option String
  jiraTicketUrl : Option (Option String)
  jiraTicketKey : Option (Option String)
deriving DecidableEq

/-- The update with no field present. -/
def emptyUpdate : IssueUpdate :=
  ⟨none, none, none, none, none, none, none, none, none, none, none, none, none⟩

/-- The object spread in updateIssue: fields of updates override fields of
issue, then updatedAt is set to now regardless. -/
def applyUpdate (issue : Issue) (u : IssueUpdate) (now : String) : Issue :=
  { id := u.id.getD issue.id
    page := u.page.getD issue.page
    criterionNumber := u.criterionNumber.getD issue.criterionNumber
    title := u.title.getD issue.title
    description := u.description.getD issue.description
    location := u.location.getD issue.location
    screenshot := u.screenshot.getD issue.screenshot
    notes := u.notes.getD issue.notes
    priority := u.priority.getD issue.priority
    createdAt := u.createdAt.getD issue.createdAt
    updatedAt := now
    jiraTicketUrl := u.jiraTicketUrl.getD issue.jiraTicketUrl
    jiraTicketKey := u.jiraTicketKey.getD issue.jiraTicketKey }

/-- ReportStorage.addIssue.  newId stands for crypto.randomUUID and now for
new Date().toISOString(). -/
def addIssue (report : Report) (issue : NewIssue) (newId now : String) : Report :=
  let newIssue : Issue :=
    { id := newId
      page := issue.page
      criterionNumber := issue.criterionNumber
      title := issue.title
      description := issue.description
      location := issue.location
      screenshot := issue.screenshot
      notes := issue.notes
      priority := issue.priority
      createdAt := now
      updatedAt := now
      jiraTicketUrl := issue.jiraTicketUrl
      jiraTicketKey := issue.jiraTicketKey }
  let pages :=
    if report.pages.contains issue.page then report.pages
    else report.pages ++ [issue.page]
  { report with pages := pages, issues := report.issues ++ [newIssue], updatedAt := now }

/-- ReportStorage.updateIssue.  The page is appended only when updates.page
is present and truthy (a nonempty string), differs from the old issue page,
and is not already listed. -/
def updateIssue (report : Report) (issueId : String) (updates : IssueUpdate)
    (now : String) : Report :=
  let issues := report.issues.map fun issue =>
    if issue.id = issueId then applyUpdate issue updates now else issue
  let oldIssue := report.issues.find? fun i => i.id = issueId
  let pages :=
    match updates.page with
    | none => report.pages
    | some newPage =>
      if newPage != "" &&
         (match oldIssue with
          | some o => o.page != newPage
          | none => true) &&
         !(report.pages.contains newPage) then
        report.pages ++ [newPage]
      else report.pages
  { report with pages := pages, issues := issues, updatedAt := now }

/-- ReportStorage.deleteIssue: removes the matching issues, then keeps
exactly the pages still referenced by a remaining issue. -/
def deleteIssue (report : Report) (issueId : String) (now : String) : Report :=
  let issues := report.issues.filter fun issue => issue.id != issueId
  let pages := report.pages.filter fun page => issues.any fun i => i.page == page
  { report with pages := pages, issues := issues, updatedAt := now }

/-- JavaScript Map.set on an association list: setting an existing key
replaces its value in place (keeping its position), a new key is appended. -/
def mapSet : List (String × Issue) → String → Issue → List (String × Issue)
  | [], k, v => [(k, v)]
  | p :: m, k, v => if p.1 == k then (k, v) :: m else p :: mapSet m k v

/-- JavaScript Map.get on an association list. -/
def mapGet (m : List (String × Issue)) (k : String) : Option Issue :=
  (m.find? fun p => p.1 == k).map Prod.snd

/-- JavaScript Set.add on a duplicate-free list preserving insertion order. -/
def insertSet (s : List String) (x : String) : List String :=
  if s.contains x then s else s ++ [x]

/-- The isCompleteConfig closure of mergeReports: the three credential
fields are all truthy, i.e. nonempty strings. -/
def isCompleteConfig : Option JiraConfig → Bool
  | none => false
  | some c => c.baseUrl != "" && c.apiToken != "" && c.userEmail != ""

/-- The first loop of mergeReports: add all issues of report1 to the map. -/
def mergePhase1 (m : List (String × Issue)) (issues : List Issue) :
    List (String × Issue) :=
  issues.foldl (fun m issue => mapSet m issue.id issue) m

/-- One iteration of the second loop of mergeReports: an unseen id is
inserted, a collision keeps the more recently updated copy, with the
strict greater-than comparison of the source. -/
def mergeStep (getTime : String → Int) (m : List (String × Issue))
    (issue : Issue) : List (String × Issue) :=
  match mapGet m issue.id with
  | none => mapSet m issue.id issue
  | some existing =>
    if getTime issue.updatedAt > getTime existing.updatedAt then
      mapSet m issue.id issue
    else m

/-- The second loop of mergeReports, over the issues of report2. -/
def mergePhase2 (getTime : String → Int) (m : List (String × Issue))
    (issues : List Issue) : List (String × Issue) :=
  issues.foldl (mergeStep getTime) m

/-- The loop of mergeReports that adds every page referenced by a surviving
issue to the page set. -/
def addIssuePages (s : List String) (issues : List Issue) : List String :=
  issues.foldl (fun s issue => insertSet s issue.page) s

/-- ReportStorage.mergeReports.  getTime abstracts
new Date(s).getTime(); newId stands for crypto.randomUUID and now for
new Date().toISOString(). -/
def mergeReports (getTime : String → Int) (report1 report2 : Report)
    (newTitle newId now : String) : Report :=
  let issueMap := mergePhase2 getTime (mergePhase1 [] report1.issues) report2.issues
  let mergedIssues := issueMap.map Prod.snd
  let allPages :=
    addIssuePages (List.foldl insertSet [] (report1.pages ++ report2.pages))
      mergedIssues
  let jiraConfig :=
    if isCompleteConfig report1.jiraConfig then report1.jiraConfig
    else if isCompleteConfig report2.jiraConfig then report2.jiraConfig
    else report1.jiraConfig.orElse fun _ => report2.jiraConfig
  { id := newId
    name := newTitle
    pages := allPages
    issues := mergedIssues
    createdAt := now
    updatedAt := now
    jiraConfig := jiraConfig }

/-- A JavaScript value as seen by JSON.parse and the structural checks of
validateReport: null, undefined, booleans, numbers, strings, arrays and
plain objects (association lists of named fields). -/
inductive JSValue where
  | null
  | undefined
  | bool (b : Bool)
  | num (n : Int)
  | str (s : String)
  | arr (elems : List JSValue)
  | obj (fields : List (String × JSValue))

/-- The typeof operator restricted to the values above. -/
def jsTypeof : JSValue → String
  | .null => "object"
  | .undefined => "undefined"
  | .bool _ => "boolean"
  | .num _ => "number"
  | .str _ => "string"
  | .arr _ => "object"
  | .obj _ => "object"

/-- Property access r.k: the first field of that name on a plain object,
undefined otherwise. -/
def getProp : JSValue → String → JSValue
  | .obj fields, k =>
    match fields.find? fun p => p.1 == k with
    | some p => p.2
    | none => .undefined
  | _, _ => .undefined

/-- The strict null test report === null. -/
def isNullJS : JSValue → Bool
  | .null => true
  | _ => false

/-- Array.isArray. -/
def isArrayJS : JSValue → Bool
  | .arr _ => true
  | _ => false

/-- ReportStorage.validateReport, line for line: reject non-objects and
null, then check that id and name are strings, pages and issues are
arrays, and createdAt and updatedAt are strings. -/
def validateReport (report : JSValue) : Bool :=
  if jsTypeof report != "object" || isNullJS report then false
  else
    jsTypeof (getProp report "id") == "string" &&
    jsTypeof (getProp report "name") == "string" &&
    isArrayJS (getProp report "pages") &&
    isArrayJS (getProp report "issues") &&
    jsTypeof (getProp report "createdAt") == "string" &&
    jsTypeof (getProp report "updatedAt") == "string"

/-- The regex match of extractCriterionNumber against one tag:
the pattern is anchored wcag, one digit, one digit, then one or more
digits, with nothing after. -/
def wcagTagMatch (tag : String) : Option (Char × Char × List Char) :=
  match tag.toList with
  | 'w' :: 'c' :: 'a' :: 'g' :: d1 :: d2 :: rest =>
    if d1.isDigit && d2.isDigit && !rest.isEmpty && rest.all Char.isDigit then
      some (d1, d2, rest)
    else none
  | _ => none

/-- The dotted rendering of the three capture groups. -/
def dottedCriterion (d1 d2 : Char) (rest : List Char) : String :=
  String.mk [d1] ++ "." ++ String.mk [d2] ++ "." ++ String.mk rest

/-- extractCriterionNumber from the scan-result component: return the
dotted rendering of the first tag the regex accepts, null when none does. -/
def extractCriterionNumber : List String → Option String
  | [] => none
  | tag :: rest =>
    match wcagTagMatch tag with
    | some (d1, d2, ds) => some (dottedCriterion d1 d2 ds)
    | none => extractCriterionNumber rest

/-- The upstream response as the relay sees it after awaiting fetch and
resolving the body: status, ok flag, statusText, and the parsed data
(JSON value or raw text, already folded into a JSValue). -/
structure UpstreamResponse where
  status : Int
  ok : Bool
  statusText : String
  data : JSValue

/-- The parsed JSON body of a POST /proxy request. -/
structure ProxyRequest where
  url : Option String
  method : Option String
  headers : Option JSValue
  body : Option JSValue

/-- What the relay sends back: an HTTP status and a JSON body. -/
structure RelayResponse where
  status : Int
  body : JSValue

/-- The success body of the relay: ok, status, statusText and data of the
upstream response, unmodified. -/
def reflectBody (r : UpstreamResponse) : JSValue :=
  .obj [("ok", .bool r.ok), ("status", .num r.status),
        ("statusText", .str r.statusText), ("data", r.data)]

/-- The catch-branch body of the relay. -/
def errorBody (msg : String) : JSValue :=
  .obj [("ok", .bool false), ("status", .num 500),
        ("statusText", .str "Internal Server Error"),
        ("data", .obj [("error", .str msg)])]

/-- The 400 body sent when the request carries no url. -/
def missingUrlBody : JSValue :=
  .obj [("error", .str "Missing URL parameter")]

/-- The POST /proxy handler of jira-proxy/server.js.  fetchResult abstracts
the awaited fetch plus body resolution inside the try block: Except.ok is
an upstream response, Except.error is anything thrown there.  A missing or
empty (falsy) url answers 400 before any forward happens. -/
def proxyHandler (req : ProxyRequest)
    (fetchResult : Except String UpstreamResponse) : RelayResponse :=
  match req.url with
  | none => { status := 400, body := missingUrlBody }
  | some u =>
    if u = "" then
      { status := 400, body := missingUrlBody }
    else
      match fetchResult with
      | .ok r => { status := r.status, body := reflectBody r }
      | .error msg => { status := 500, body := errorBody msg }

/-!  Definitions taken from the words of the specification, for comparison
with the embedded code, and small concrete values used in witnesses and
counterexamples. -/

/-- From the spec wording: a tracker config is complete when all three
required credential fields are present and nonempty. -/
def isCompleteConfigSpec (c : Option JiraConfig) : Prop :=
  ∃ cfg, c = some cfg ∧ cfg.baseUrl ≠ "" ∧ cfg.apiToken ≠ "" ∧ cfg.userEmail ≠ ""

/-- From the spec wording of claim C5: prefer a complete config of report1,
then a complete config of report2, then any present config with
first-report priority. -/
def selectMergedConfig (c1 c2 : Option JiraConfig) : Option JiraConfig :=
  if isCompleteConfig c1 then c1
  else if isCompleteConfig c2 then c2
  else if c1.isSome then c1
  else c2

/-- From the spec wording of claim C7: a non-null object whose id and name
are strings, whose pages and issues are arrays, and whose createdAt and
updatedAt are strings; nothing is said about the elements of issues. -/
def isValidReportSpec (v : JSValue) : Prop :=
  (∃ fields, v = JSValue.obj fields) ∧
  (∃ s, getProp v "id" = JSValue.str s) ∧
  (∃ s, getProp v "name" = JSValue.str s) ∧
  (∃ l, getProp v "pages" = JSValue.arr l) ∧
  (∃ l, getProp v "issues" = JSValue.arr l) ∧
  (∃ s, getProp v "createdAt" = JSValue.str s) ∧
  (∃ s, getProp v "updatedAt" = JSValue.str s)

/-- From the spec wording of claim C8: the wcag prefix followed by bare
digits only, at least three of them: a first digit, a second digit, and a
nonempty digit remainder. -/
def criterionTagShape (tag : String) (d1 d2 : Char) (ds : List Char) : Prop :=
  tag.toList = 'w' :: 'c' :: 'a' :: 'g' :: d1 :: d2 :: ds ∧
  d1.isDigit = true ∧ d2.isDigit = true ∧ ds ≠ [] ∧ ∀ c ∈ ds, c.isDigit = true

/-- A tag that the claim says must be rendered as a criterion number. -/
def hasCriterionShape (tag : String) : Prop :=
  ∃ d1 d2 ds, criterionTagShape tag d1 d2 ds

/-- A concrete issue with the given id, page, title and update timestamp;
the remaining fields are fixed harmless values. -/
def mkIssue (id page title updatedAt : String) : Issue :=
  ⟨id, page, "1.1.1", title, "", "", none, "", 1, "", updatedAt, none, none⟩

/-- A concrete report around the given pages and issues. -/
def mkReport (pages : List String) (issues : List Issue) : Report :=
  ⟨"rid", "rname", pages, issues, "c0", "u0", none⟩

/-- A concrete addIssue payload for the given page. -/
def mkNewIssue (page : String) : NewIssue :=
  ⟨page, "1.1.1", "tt", "", "", none, "", 1, none, none⟩

/-- A concrete stand-in for new Date(s).getTime(): the length of the
string, so that longer timestamp strings count as later. -/
def lenTime (s : String) : Int :=
  s.length

/-!  Basic facts about the association-list embedding of Map. -/

/-- The first issue of a list carrying a given id, as find? computes it. -/
def lookupIssue (l : List Issue) (k : String) : Option Issue :=
  l.find? fun i => i.id == k

/-- The collision policy of the second merge loop, named: the incoming copy
replaces the existing one exactly when its timestamp is strictly greater. -/
def keepLater (getTime : String → Int) (existing incoming : Issue) : Issue :=
  if getTime incoming.updatedAt > getTime existing.updatedAt then incoming
  else existing

theorem mapGet_cons (p : String × Issue) (m : List (String × Issue)) (k : String) :
    mapGet (p :: m) k = if p.1 == k then some p.2 else mapGet m k := by
  cases h : p.1 == k <;> simp [mapGet, List.find?_cons, h]

theorem mapGet_mapSet_self (m : List (String × Issue)) (k : String) (v : Issue) :
    mapGet (mapSet m k v) k = some v := by
  induction m with
  | nil => simp [mapSet, mapGet, List.find?_cons]
  | cons p m ih =>
    cases h : p.1 == k
    · simp [mapSet, h, mapGet_cons, ih]
    · simp [mapSet, h, mapGet_cons]

theorem mapGet_mapSet_ne (m : List (String × Issue)) (k k' : String) (v : Issue)
    (h : k' ≠ k) : mapGet (mapSet m k v) k' = mapGet m k' := by
  have hkk : (k == k') = false := beq_eq_false_iff_ne.mpr (Ne.symm h)
  induction m with
  | nil => simp [mapSet, mapGet, List.find?_cons, hkk]
  | cons p m ih =>
    cases h1 : p.1 == k
    · simp [mapSet, h1, mapGet_cons, ih]
    · have hp : p.1 = k := by simpa using h1
      simp [mapSet, h1, mapGet_cons, hkk, hp]

theorem lookupIssue_cons (i : Issue) (l : List Issue) (k : String) :
    lookupIssue (i :: l) k = if i.id == k then some i else lookupIssue l k := by
  cases h : i.id == k <;> simp [lookupIssue, List.find?_cons, h]

theorem lookupIssue_eq_none (l : List Issue) (k : String) :
    lookupIssue l k = none ↔ ∀ i ∈ l, i.id ≠ k := by
  simp [lookupIssue, List.find?_eq_none]

theorem lookupIssue_of_nodup (l : List Issue) (i : Issue)
    (hl : (l.map Issue.id).Nodup) (hi : i ∈ l) : lookupIssue l i.id = some i := by
  induction l with
  | nil => cases hi
  | cons j l ih =>
    have hl' : (∀ x ∈ l, ¬ x.id = j.id) ∧ (l.map Issue.id).Nodup := by
      simpa using hl
    rcases List.mem_cons.mp hi with h | h
    · subst h; simp [lookupIssue_cons]
    · have hj : j.id ≠ i.id := fun e => hl'.1 i h e.symm
      have hb : (j.id == i.id) = false := beq_eq_false_iff_ne.mpr hj
      simpa [lookupIssue_cons, hb] using ih hl'.2 h

theorem mapGet_mergePhase1 (l : List Issue) (m : List (String × Issue)) (k : String)
    (hl : (l.map Issue.id).Nodup) :
    mapGet (mergePhase1 m l) k =
      match lookupIssue l k with
      | some i => some i
      | none => mapGet m k := by
  induction l generalizing m with
  | nil => rfl
  | cons i l ih =>
    have hl' : (∀ x ∈ l, ¬ x.id = i.id) ∧ (l.map Issue.id).Nodup := by
      simpa using hl
    have step : mergePhase1 m (i :: l) = mergePhase1 (mapSet m i.id i) l := rfl
    rw [step, ih _ hl'.2]
    cases hk : i.id == k
    · have hne : k ≠ i.id := fun e => by simp [e] at hk
      simp [lookupIssue_cons, hk, mapGet_mapSet_ne _ _ _ _ hne]
    · have hik : i.id = k := by simpa using hk
      subst hik
      have hnone : lookupIssue l i.id = none :=
        (lookupIssue_eq_none _ _).mpr hl'.1
      simp [lookupIssue_cons, hnone, mapGet_mapSet_self]

theorem mapGet_mergePhase2 (gt : String → Int) (l : List Issue)
    (m : List (String × Issue)) (k : String) (hl : (l.map Issue.id).Nodup) :
    mapGet (mergePhase2 gt m l) k =
      match lookupIssue l k with
      | none => mapGet m k
      | some i =>
        match mapGet m k with
        | none => some i
        | some e => some (keepLater gt e i) := by
  induction l generalizing m with
  | nil => rfl
  | cons i l ih =>
    have hl' : (∀ x ∈ l, ¬ x.id = i.id) ∧ (l.map Issue.id).Nodup := by
      simpa using hl
    have step : mergePhase2 gt m (i :: l) = mergePhase2 gt (mergeStep gt m i) l := rfl
    rw [step, ih _ hl'.2]
    cases hk : i.id == k
    · have hne : k ≠ i.id := fun e => by simp [e] at hk
      have hstep : mapGet (mergeStep gt m i) k = mapGet m k := by
        unfold mergeStep
        cases mapGet m i.id with
        | none => exact mapGet_mapSet_ne _ _ _ _ hne
        | some e =>
          by_cases ht : gt i.updatedAt > gt e.updatedAt
          · simp [ht, mapGet_mapSet_ne _ _ _ _ hne]
          · simp [ht]
      simp [lookupIssue_cons, hk, hstep]
    · have hik : i.id = k := by simpa using hk
      subst hik
      have hnone : lookupIssue l i.id = none :=
        (lookupIssue_eq_none _ _).mpr hl'.1
      have hstep : mapGet (mergeStep gt m i) i.id =
          match mapGet m i.id with
          | none => some i
          | some e => some (keepLater gt e i) := by
        unfold mergeStep
        cases hm : mapGet m i.id with
        | none => simp [mapGet_mapSet_self]
        | some e =>
          by_cases ht : gt i.updatedAt > gt e.updatedAt
          · simp [ht, keepLater, mapGet_mapSet_self]
          · simp [ht, keepLater, hm]
      simp [lookupIssue_cons, hnone, hstep]

/-- Invariant of the merge map: every pair keys its own issue id, and the
keys are duplicate-free. -/
def goodMap (m : List (String × Issue)) : Prop :=
  (∀ p ∈ m, p.1 = p.2.id) ∧ (m.map Prod.fst).Nodup

theorem mem_mapSet (m : List (String × Issue)) (k : String) (v : Issue)
    (p : String × Issue) (hp : p ∈ mapSet m k v) : p ∈ m ∨ p = (k, v) := by
  induction m with
  | nil => simpa [mapSet] using hp
  | cons q m ih =>
    cases h : q.1 == k
    · rw [mapSet, h] at hp
      simp only [Bool.false_eq_true, if_false, List.mem_cons] at hp
      rcases hp with h1 | h1
      · exact Or.inl (h1 ▸ List.mem_cons_self q m)
      · rcases ih h1 with h2 | h2
        · exact Or.inl (List.mem_cons_of_mem q h2)
        · exact Or.inr h2
    · rw [mapSet, h] at hp
      simp only [if_true, List.mem_cons] at hp
      rcases hp with h1 | h1
      · exact Or.inr h1
      · exact Or.inl (List.mem_cons_of_mem q h1)

theorem keys_mapSet (m : List (String × Issue)) (k : String) (v : Issue) :
    (mapSet m k v).map Prod.fst =
      if k ∈ m.map Prod.fst then m.map Prod.fst else m.map Prod.fst ++ [k] := by
  induction m with
  | nil => simp [mapSet]
  | cons p m ih =>
    cases h : p.1 == k
    · have hne : ¬ p.1 = k := by simpa using h
      rw [mapSet, h]
      simp only [Bool.false_eq_true, if_false, List.map_cons, ih]
      by_cases hm : k ∈ m.map Prod.fst
      · simp [hm, Ne.symm hne]
      · simp [hm, Ne.symm hne]
    · have hp : p.1 = k := by simpa using h
      rw [mapSet, h]
      simp [hp]

theorem goodMap_mapSet (m : List (String × Issue)) (v : Issue)
    (h : goodMap m) : goodMap (mapSet m v.id v) := by
  constructor
  · intro p hp
    rcases mem_mapSet m v.id v p hp with h1 | h1
    · exact h.1 p h1
    · simp [h1]
  · rw [keys_mapSet]
    by_cases hm : v.id ∈ m.map Prod.fst
    · simpa [hm] using h.2
    · simp [hm, List.nodup_append, h.2]

theorem goodMap_mergePhase1 (l : List Issue) (m : List (String × Issue))
    (h : goodMap m) : goodMap (mergePhase1 m l) := by
  induction l generalizing m with
  | nil => exact h
  | cons i l ih => exact ih (mapSet m i.id i) (goodMap_mapSet m i h)

theorem goodMap_mergeStep (gt : String → Int) (m : List (String × Issue))
    (i : Issue) (h : goodMap m) : goodMap (mergeStep gt m i) := by
  unfold mergeStep
  cases mapGet m i.id with
  | none => exact goodMap_mapSet m i h
  | some e =>
    by_cases ht : gt i.updatedAt > gt e.updatedAt
    · simpa [ht] using goodMap_mapSet m i h
    · simpa [ht] using h

theorem goodMap_mergePhase2 (gt : String → Int) (l : List Issue)
    (m : List (String × Issue)) (h : goodMap m) :
    goodMap (mergePhase2 gt m l) := by
  induction l generalizing m with
  | nil => exact h
  | cons i l ih => exact ih (mergeStep gt m i) (goodMap_mergeStep gt m i h)

theorem mapGet_eq_some_of_mem (m : List (String × Issue)) (k : String)
    (x : Issue) (hnd : (m.map Prod.fst).Nodup) (hm : (k, x) ∈ m) :
    mapGet m k = some x := by
  induction m with
  | nil => cases hm
  | cons q m ih =>
    rw [List.map_cons, List.nodup_cons] at hnd
    rcases List.mem_cons.mp hm with h | h
    · rw [mapGet_cons, ← h]
      simp
    · have hq : (q.1 == k) = false := by
        refine beq_eq_false_iff_ne.mpr fun e => hnd.1 ?_
        exact e ▸ List.mem_map_of_mem Prod.fst h
      rw [mapGet_cons, hq]
      simpa using ih hnd.2 h

theorem mem_snd_iff_mapGet (m : List (String × Issue)) (i : Issue)
    (h : goodMap m) : i ∈ m.map Prod.snd ↔ mapGet m i.id = some i := by
  constructor
  · intro hi
    rcases List.mem_map.mp hi with ⟨p, hp, hsnd⟩
    have hfst : p.1 = p.2.id := h.1 p hp
    have hpe : p = (i.id, i) := by
      obtain ⟨a, b⟩ := p
      cases hsnd
      simpa using hfst
    exact mapGet_eq_some_of_mem _ _ _ h.2 (hpe ▸ hp)
  · intro hg
    unfold mapGet at hg
    rcases Option.map_eq_some'.mp hg with ⟨p, hfind, hsnd⟩
    exact hsnd ▸ List.mem_map_of_mem Prod.snd (List.mem_of_find?_eq_some hfind)

theorem lookupIssue_some_imp (l : List Issue) (k : String) (j : Issue)
    (h : lookupIssue l k = some j) : j ∈ l ∧ j.id = k := by
  refine ⟨List.mem_of_find?_eq_some h, ?_⟩
  simpa using List.find?_some h

theorem lookupIssue_exists_iff (l : List Issue) (k : String) :
    (∃ i ∈ l, i.id = k) ↔ ∃ j, lookupIssue l k = some j := by
  constructor
  · intro ⟨i, hi, hk⟩
    have : (lookupIssue l k).isSome := by
      rw [lookupIssue, List.find?_isSome]
      exact ⟨i, hi, by simp [hk]⟩
    exact Option.isSome_iff_exists.mp this
  · intro ⟨j, hj⟩
    obtain ⟨hm, hk⟩ := lookupIssue_some_imp l k j hj
    exact ⟨j, hm, hk⟩

theorem mapGet_mergedMap (gt : String → Int) (r1 r2 : Report) (k : String)
    (hn1 : (r1.issues.map Issue.id).Nodup)
    (hn2 : (r2.issues.map Issue.id).Nodup) :
    mapGet (mergePhase2 gt (mergePhase1 [] r1.issues) r2.issues) k =
      match lookupIssue r2.issues k with
      | none => lookupIssue r1.issues k
      | some i2 =>
        match lookupIssue r1.issues k with
        | none => some i2
        | some i1 => some (keepLater gt i1 i2) := by
  rw [mapGet_mergePhase2 gt _ _ _ hn2]
  have h1 : mapGet (mergePhase1 [] r1.issues) k = lookupIssue r1.issues k := by
    rw [mapGet_mergePhase1 _ _ _ hn1]
    cases lookupIssue r1.issues k <;> simp [mapGet]
  rw [h1]

theorem mergeReports_issues (gt : String → Int) (r1 r2 : Report)
    (t nid now : String) :
    (mergeReports gt r1 r2 t nid now).issues =
      (mergePhase2 gt (mergePhase1 [] r1.issues) r2.issues).map Prod.snd := rfl

theorem mem_mergeReports_iff (gt : String → Int) (r1 r2 : Report)
    (t nid now : String) (i : Issue) :
    i ∈ (mergeReports gt r1 r2 t nid now).issues ↔
      mapGet (mergePhase2 gt (mergePhase1 [] r1.issues) r2.issues) i.id = some i := by
  rw [mergeReports_issues]
  exact mem_snd_iff_mapGet _ i
    (goodMap_mergePhase2 gt _ _ (goodMap_mergePhase1 _ _ ⟨by simp, by simp⟩))

theorem mapGet_some_mem (m : List (String × Issue)) (k : String) (w : Issue)
    (h : goodMap m) (hw : mapGet m k = some w) :
    w ∈ m.map Prod.snd ∧ w.id = k := by
  unfold mapGet at hw
  rcases Option.map_eq_some'.mp hw with ⟨p, hfind, hsnd⟩
  have hmem := List.mem_of_find?_eq_some hfind
  have hk : p.1 = k := by simpa using List.find?_some hfind
  refine ⟨hsnd ▸ List.mem_map_of_mem Prod.snd hmem, ?_⟩
  rw [← hsnd, ← h.1 p hmem, hk]

theorem goodMap_merged (gt : String → Int) (r1 r2 : Report) :
    goodMap (mergePhase2 gt (mergePhase1 [] r1.issues) r2.issues) :=
  goodMap_mergePhase2 gt _ _ (goodMap_mergePhase1 _ _ ⟨by simp, by simp⟩)

/-- C1: mergeReports merges issues as a union keyed by issue id.  Every id
of the merged report is an id of one of the inputs and conversely; merged
ids are duplicate-free; an issue whose id occurs in only one input
survives as given by that input; and on a collision the copy with the
strictly later updatedAt timestamp (under the abstracted Date parsing
getTime) is the one kept, the other one dropped.  The claim speaks of the
issue carrying a given id in a report, so ids are assumed unique within
each input, which the application guarantees by assigning UUIDs at
creation. -/
theorem C1_mergeReports_union_by_id (gt : String → Int) (r1 r2 : Report)
    (t nid now : String)
    (hn1 : (r1.issues.map Issue.id).Nodup)
    (hn2 : (r2.issues.map Issue.id).Nodup) :
    (∀ k : String,
      (∃ i ∈ (mergeReports gt r1 r2 t nid now).issues, i.id = k) ↔
        ((∃ i ∈ r1.issues, i.id = k) ∨ (∃ i ∈ r2.issues, i.id = k))) ∧
    ((mergeReports gt r1 r2 t nid now).issues.map Issue.id).Nodup ∧
    (∀ i1 ∈ r1.issues, (∀ i2 ∈ r2.issues, i2.id ≠ i1.id) →
      i1 ∈ (mergeReports gt r1 r2 t nid now).issues) ∧
    (∀ i2 ∈ r2.issues, (∀ i1 ∈ r1.issues, i1.id ≠ i2.id) →
      i2 ∈ (mergeReports gt r1 r2 t nid now).issues) ∧
    (∀ i1 ∈ r1.issues, ∀ i2 ∈ r2.issues, i1.id = i2.id →
      (gt i2.updatedAt > gt i1.updatedAt →
        i2 ∈ (mergeReports gt r1 r2 t nid now).issues ∧
        (i1 ≠ i2 → i1 ∉ (mergeReports gt r1 r2 t nid now).issues)) ∧
      (gt i1.updatedAt > gt i2.updatedAt →
        i1 ∈ (mergeReports gt r1 r2 t nid now).issues ∧
        (i2 ≠ i1 → i2 ∉ (mergeReports gt r1 r2 t nid now).issues))) := by
  have hgood := goodMap_merged gt r1 r2
  refine ⟨?_, ?_, ?_, ?_, ?_⟩
  · intro k
    constructor
    · rintro ⟨i, hi, rfl⟩
      have hg := (mem_mergeReports_iff gt r1 r2 t nid now i).mp hi
      rw [mapGet_mergedMap gt r1 r2 i.id hn1 hn2] at hg
      rcases h2 : lookupIssue r2.issues i.id with _ | j2
      · rw [h2] at hg
        obtain ⟨hm, hk⟩ := lookupIssue_some_imp _ _ _ hg
        exact Or.inl ⟨i, hm, rfl⟩
      · obtain ⟨hm, hk⟩ := lookupIssue_some_imp _ _ _ h2
        exact Or.inr ⟨j2, hm, hk⟩
    · intro h
      have hsome : ∃ w, mapGet (mergePhase2 gt (mergePhase1 [] r1.issues)
          r2.issues) k = some w := by
        rw [mapGet_mergedMap gt r1 r2 k hn1 hn2]
        rcases h with h | h
        · obtain ⟨j1, hj1⟩ := (lookupIssue_exists_iff _ _).mp h
          rcases h2 : lookupIssue r2.issues k with _ | j2 <;> simp [hj1, h2]
        · obtain ⟨j2, hj2⟩ := (lookupIssue_exists_iff _ _).mp h
          rcases h1 : lookupIssue r1.issues k with _ | j1 <;> simp [hj2, h1]
      obtain ⟨w, hw⟩ := hsome
      obtain ⟨hmem, hid⟩ := mapGet_some_mem _ _ _ hgood hw
      exact ⟨w, (mergeReports_issues gt r1 r2 t nid now) ▸ hmem, hid⟩
  · rw [mergeReports_issues, List.map_map]
    have hcongr : (mergePhase2 gt (mergePhase1 [] r1.issues) r2.issues).map
        (Issue.id ∘ Prod.snd) =
        (mergePhase2 gt (mergePhase1 [] r1.issues) r2.issues).map Prod.fst :=
      List.map_congr_left fun p hp => (hgood.1 p hp).symm
    rw [hcongr]
    exact hgood.2
  · intro i1 h1 hno
    rw [mem_mergeReports_iff, mapGet_mergedMap gt r1 r2 i1.id hn1 hn2]
    have h2 : lookupIssue r2.issues i1.id = none :=
      (lookupIssue_eq_none _ _).mpr hno
    simp [h2, lookupIssue_of_nodup r1.issues i1 hn1 h1]
  · intro i2 h2 hno
    rw [mem_mergeReports_iff, mapGet_mergedMap gt r1 r2 i2.id hn1 hn2]
    have h1 : lookupIssue r1.issues i2.id = none :=
      (lookupIssue_eq_none _ _).mpr hno
    simp [h1, lookupIssue_of_nodup r2.issues i2 hn2 h2]
  · intro i1 h1 i2 h2 hid
    have l1 : lookupIssue r1.issues i2.id = some i1 := by
      rw [← hid]; exact lookupIssue_of_nodup _ _ hn1 h1
    have l2 : lookupIssue r2.issues i2.id = some i2 :=
      lookupIssue_of_nodup _ _ hn2 h2
    have hm : mapGet (mergePhase2 gt (mergePhase1 [] r1.issues) r2.issues)
        i2.id = some (keepLater gt i1 i2) := by
      rw [mapGet_mergedMap gt r1 r2 i2.id hn1 hn2]
      simp [l1, l2]
    constructor
    · intro ht
      have hk : keepLater gt i1 i2 = i2 := by simp [keepLater, ht]
      rw [hk] at hm
      refine ⟨(mem_mergeReports_iff gt r1 r2 t nid now i2).mpr hm, ?_⟩
      intro hne hmem
      have hm1 := (mem_mergeReports_iff gt r1 r2 t nid now i1).mp hmem
      rw [hid, hm] at hm1
      exact hne (Option.some.inj hm1).symm
    · intro ht
      have hk : keepLater gt i1 i2 = i1 := by
        simp [keepLater, lt_asymm ht]
      rw [hk] at hm
      have hm1 : mapGet (mergePhase2 gt (mergePhase1 [] r1.issues) r2.issues)
          i1.id = some i1 := by rw [hid]; exact hm
      refine ⟨(mem_mergeReports_iff gt r1 r2 t nid now i1).mpr hm1, ?_⟩
      intro hne hmem
      have hm2 := (mem_mergeReports_iff gt r1 r2 t nid now i2).mp hmem
      rw [hm] at hm2
      exact hne (Option.some.inj hm2).symm

/-- Witness for C1: two concrete one-issue reports colliding on id x; the
copy with the longer (hence strictly later under lenTime) timestamp is in
the merged report. -/
theorem C1_mergeReports_union_by_id_witness :
    mkIssue "x" "p" "B" "t22" ∈
      (mergeReports lenTime (mkReport ["p"] [mkIssue "x" "p" "A" "t1"])
        (mkReport ["p"] [mkIssue "x" "p" "B" "t22"]) "n" "nid" "t9").issues := by
  have h := C1_mergeReports_union_by_id lenTime
    (mkReport ["p"] [mkIssue "x" "p" "A" "t1"])
    (mkReport ["p"] [mkIssue "x" "p" "B" "t22"]) "n" "nid" "t9"
    (by decide) (by decide)
  exact ((h.2.2.2.2 (mkIssue "x" "p" "A" "t1") (by decide)
    (mkIssue "x" "p" "B" "t22") (by decide) rfl).1 (by decide)).1

/-- C2 counterexample: merging two one-issue reports whose issues share id
x and an identical updatedAt timestamp keeps the FIRST report's copy, not
the second one's as the claim states. -/
theorem C2_counterexample :
    (mergeReports lenTime (mkReport ["p"] [mkIssue "x" "p" "A" "t1"])
        (mkReport ["p"] [mkIssue "x" "p" "B" "t1"]) "n" "nid" "t9").issues =
      [mkIssue "x" "p" "A" "t1"] ∧
    mkIssue "x" "p" "B" "t1" ∉
      (mergeReports lenTime (mkReport ["p"] [mkIssue "x" "p" "A" "t1"])
        (mkReport ["p"] [mkIssue "x" "p" "B" "t1"]) "n" "nid" "t9").issues := by
  constructor
  · rfl
  · decide

/-- C2 amended: when the same issue id occurs in both inputs with identical
updatedAt timestamps, the FIRST report's copy is kept (and the second
one's dropped when distinct), because the strict greater-than comparison
leaves the existing map entry in place on a tie. -/
theorem C2_merge_tie_first_report_wins (gt : String → Int) (r1 r2 : Report)
    (t nid now : String)
    (hn1 : (r1.issues.map Issue.id).Nodup)
    (hn2 : (r2.issues.map Issue.id).Nodup)
    (i1 i2 : Issue) (h1 : i1 ∈ r1.issues) (h2 : i2 ∈ r2.issues)
    (hid : i1.id = i2.id)
    (ht : gt i1.updatedAt = gt i2.updatedAt) :
    i1 ∈ (mergeReports gt r1 r2 t nid now).issues ∧
    (i2 ≠ i1 → i2 ∉ (mergeReports gt r1 r2 t nid now).issues) := by
  have l1 : lookupIssue r1.issues i2.id = some i1 := by
    rw [← hid]; exact lookupIssue_of_nodup _ _ hn1 h1
  have l2 : lookupIssue r2.issues i2.id = some i2 :=
    lookupIssue_of_nodup _ _ hn2 h2
  have hm : mapGet (mergePhase2 gt (mergePhase1 [] r1.issues) r2.issues)
      i2.id = some (keepLater gt i1 i2) := by
    rw [mapGet_mergedMap gt r1 r2 i2.id hn1 hn2]
    simp [l1, l2]
  have hk : keepLater gt i1 i2 = i1 := by
    simp [keepLater, ht, lt_irrefl]
  rw [hk] at hm
  have hm1 : mapGet (mergePhase2 gt (mergePhase1 [] r1.issues) r2.issues)
      i1.id = some i1 := by rw [hid]; exact hm
  refine ⟨(mem_mergeReports_iff gt r1 r2 t nid now i1).mpr hm1, ?_⟩
  intro hne hmem
  have hm2 := (mem_mergeReports_iff gt r1 r2 t nid now i2).mp hmem
  rw [hm] at hm2
  exact hne (Option.some.inj hm2).symm

/-- Witness for the amended C2 at concrete tied reports. -/
theorem C2_merge_tie_first_report_wins_witness :
    mkIssue "x" "p" "A" "t1" ∈
      (mergeReports lenTime (mkReport ["p"] [mkIssue "x" "p" "A" "t1"])
        (mkReport ["p"] [mkIssue "x" "p" "B" "t1"]) "n" "nid" "t9").issues :=
  (C2_merge_tie_first_report_wins lenTime
    (mkReport ["p"] [mkIssue "x" "p" "A" "t1"])
    (mkReport ["p"] [mkIssue "x" "p" "B" "t1"]) "n" "nid" "t9"
    (by decide) (by decide)
    (mkIssue "x" "p" "A" "t1") (mkIssue "x" "p" "B" "t1")
    (by decide) (by decide) rfl rfl).1

theorem mapSet_append_of_not_mem (m : List (String × Issue)) (k : String)
    (v : Issue) (h : k ∉ m.map Prod.fst) : mapSet m k v = m ++ [(k, v)] := by
  induction m with
  | nil => rfl
  | cons p m ih =>
    have hk : (p.1 == k) = false := by
      refine beq_eq_false_iff_ne.mpr fun e => h ?_
      simp [← e]
    rw [mapSet, hk]
    simp only [Bool.false_eq_true, if_false, List.cons_append, List.cons.injEq,
      true_and]
    exact ih fun hm => h (by simp [hm])

theorem mergePhase1_eq_append (l : List Issue) (m : List (String × Issue))
    (hl : (l.map Issue.id).Nodup) (hd : ∀ i ∈ l, i.id ∉ m.map Prod.fst) :
    mergePhase1 m l = m ++ l.map fun i => (i.id, i) := by
  induction l generalizing m with
  | nil => simp [mergePhase1]
  | cons i l ih =>
    have hl' : (∀ x ∈ l, ¬ x.id = i.id) ∧ (l.map Issue.id).Nodup := by
      simpa using hl
    have step : mergePhase1 m (i :: l) = mergePhase1 (mapSet m i.id i) l := rfl
    have hd' : ∀ j ∈ l, j.id ∉ (m ++ [(i.id, i)]).map Prod.fst := by
      intro j hj
      simp only [List.map_append, List.mem_append, List.map_cons, List.map_nil,
        List.mem_singleton]
      rintro (hm | hm)
      · exact hd j (List.mem_cons_of_mem i hj) hm
      · exact hl'.1 j hj hm
    rw [step, mapSet_append_of_not_mem m i.id i (hd i (List.mem_cons_self i l)),
      ih _ hl'.2 hd']
    simp

theorem mergePhase2_eq_self (gt : String → Int) (l : List Issue)
    (m : List (String × Issue))
    (h : ∀ i ∈ l, ∃ e, mapGet m i.id = some e ∧
      ¬ gt i.updatedAt > gt e.updatedAt) :
    mergePhase2 gt m l = m := by
  induction l with
  | nil => rfl
  | cons i l ih =>
    obtain ⟨e, he, ht⟩ := h i (List.mem_cons_self i l)
    have step : mergePhase2 gt m (i :: l) = mergePhase2 gt (mergeStep gt m i) l := rfl
    have hstep : mergeStep gt m i = m := by
      unfold mergeStep
      simp [he, ht]
    rw [step, hstep]
    exact ih fun j hj => h j (List.mem_cons_of_mem i hj)

theorem mapGet_pairing (l : List Issue) (k : String) :
    mapGet (l.map fun i => (i.id, i)) k = lookupIssue l k := by
  induction l with
  | nil => rfl
  | cons i l ih =>
    cases h : i.id == k <;>
      simp [mapGet_cons, lookupIssue_cons, h, ih]

theorem insertSet_of_mem (s : List String) (x : String) (h : x ∈ s) :
    insertSet s x = s := by
  simp [insertSet, h]

theorem foldl_insertSet_of_subset (l s : List String) (h : ∀ x ∈ l, x ∈ s) :
    List.foldl insertSet s l = s := by
  induction l with
  | nil => rfl
  | cons x l ih =>
    rw [List.foldl_cons, insertSet_of_mem s x (h x (List.mem_cons_self x l))]
    exact ih fun y hy => h y (List.mem_cons_of_mem x hy)

theorem foldl_insertSet_fresh (l s : List String) (hl : l.Nodup)
    (h : ∀ x ∈ l, x ∉ s) : List.foldl insertSet s l = s ++ l := by
  induction l generalizing s with
  | nil => simp
  | cons x l ih =>
    have hl' : x ∉ l ∧ l.Nodup := by simpa using hl
    have hxs : x ∉ s := h x (List.mem_cons_self x l)
    have hx : insertSet s x = s ++ [x] := by simp [insertSet, hxs]
    have h' : ∀ y ∈ l, y ∉ s ++ [x] := by
      intro y hy
      simp only [List.mem_append, List.mem_singleton]
      rintro (hm | hm)
      · exact h y (List.mem_cons_of_mem x hy) hm
      · exact hl'.1 (hm ▸ hy)
    rw [List.foldl_cons, hx, ih _ hl'.2 h']
    simp

theorem addIssuePages_of_subset (issues : List Issue) (s : List String)
    (h : ∀ i ∈ issues, i.page ∈ s) : addIssuePages s issues = s := by
  induction issues with
  | nil => rfl
  | cons i l ih =>
    have step : addIssuePages s (i :: l) =
        addIssuePages (insertSet s i.page) l := rfl
    rw [step, insertSet_of_mem s i.page (h i (List.mem_cons_self i l))]
    exact ih fun j hj => h j (List.mem_cons_of_mem i hj)

theorem mergeReports_pages (gt : String → Int) (r1 r2 : Report)
    (t nid now : String) :
    (mergeReports gt r1 r2 t nid now).pages =
      addIssuePages (List.foldl insertSet [] (r1.pages ++ r2.pages))
        ((mergeReports gt r1 r2 t nid now).issues) := rfl

/-- C4: merging a report with itself yields exactly its issues and exactly
its pages, with no duplication.  The hypotheses are the documented report
invariants: issue ids are unique (assigned as UUIDs at creation), the
pages list is duplicate-free, and every page referenced by an issue is
listed in pages. -/
theorem C4_merge_self_identity (gt : String → Int) (A : Report)
    (t nid now : String)
    (hn : (A.issues.map Issue.id).Nodup)
    (hp : A.pages.Nodup)
    (href : ∀ i ∈ A.issues, i.page ∈ A.pages) :
    (mergeReports gt A A t nid now).issues = A.issues ∧
    (mergeReports gt A A t nid now).pages = A.pages := by
  have h1 : mergePhase1 [] A.issues = A.issues.map fun i => (i.id, i) := by
    simpa using mergePhase1_eq_append A.issues [] hn (by simp)
  have h2 : mergePhase2 gt (mergePhase1 [] A.issues) A.issues =
      mergePhase1 [] A.issues := by
    apply mergePhase2_eq_self
    intro i hi
    refine ⟨i, ?_, lt_irrefl _⟩
    rw [h1, mapGet_pairing]
    exact lookupIssue_of_nodup A.issues i hn hi
  have hiss : (mergeReports gt A A t nid now).issues = A.issues := by
    rw [mergeReports_issues, h2, h1, List.map_map]
    exact List.map_id' A.issues
  refine ⟨hiss, ?_⟩
  rw [mergeReports_pages, hiss]
  rw [List.foldl_append]
  rw [foldl_insertSet_fresh A.pages [] hp (by simp)]
  rw [List.nil_append]
  rw [foldl_insertSet_of_subset A.pages A.pages fun x hx => hx]
  exact addIssuePages_of_subset A.issues A.pages href

/-- Witness for C4 at a concrete one-issue report. -/
theorem C4_merge_self_identity_witness :
    (mergeReports lenTime (mkReport ["p"] [mkIssue "x" "p" "A" "t1"])
        (mkReport ["p"] [mkIssue "x" "p" "A" "t1"]) "n" "nid" "t9").issues =
      [mkIssue "x" "p" "A" "t1"] ∧
    (mergeReports lenTime (mkReport ["p"] [mkIssue "x" "p" "A" "t1"])
        (mkReport ["p"] [mkIssue "x" "p" "A" "t1"]) "n" "nid" "t9").pages =
      ["p"] :=
  C4_merge_self_identity lenTime (mkReport ["p"] [mkIssue "x" "p" "A" "t1"])
    "n" "nid" "t9" (by decide) (by decide) (by decide)

theorem addIssue_issues (R : Report) (ni : NewIssue) (newId now : String) :
    (addIssue R ni newId now).issues =
      R.issues ++ [⟨newId, ni.page, ni.criterionNumber, ni.title,
        ni.description, ni.location, ni.screenshot, ni.notes, ni.priority,
        now, now, ni.jiraTicketUrl, ni.jiraTicketKey⟩] := rfl

theorem addIssue_pages (R : Report) (ni : NewIssue) (newId now : String) :
    (addIssue R ni newId now).pages =
      if R.pages.contains ni.page then R.pages else R.pages ++ [ni.page] := rfl

theorem deleteIssue_pages (R : Report) (issueId now : String) :
    (deleteIssue R issueId now).pages =
      R.pages.filter fun page =>
        (R.issues.filter fun i => i.id != issueId).any
          fun i => i.page == page := rfl

/-- C3 counterexample: a report listing a page referenced by no issue loses
that page on an add-then-delete round trip, because deleteIssue recomputes
pages as exactly the pages still referenced. -/
theorem C3_counterexample :
    (deleteIssue (addIssue (mkReport ["p"] []) (mkNewIssue "q") "id1" "t1")
        "id1" "t2").pages ≠ (mkReport ["p"] []).pages := by decide

/-- C3 amended: adding an issue and then deleting it by its identifier
restores the pages list exactly, provided the generated id is fresh (as
randomUUID guarantees) and the report is page-consistent: every listed
page is referenced by some issue and every referenced page is listed.
Without the former condition the delete step prunes the listed pages that
no issue references. -/
theorem C3_add_delete_pages_roundtrip (R : Report) (ni : NewIssue)
    (newId t1 t2 : String)
    (hfresh : ∀ i ∈ R.issues, i.id ≠ newId)
    (hused : ∀ p ∈ R.pages, ∃ i ∈ R.issues, i.page = p)
    (href : ∀ i ∈ R.issues, i.page ∈ R.pages) :
    (deleteIssue (addIssue R ni newId t1) newId t2).pages = R.pages := by
  have hfilter : ((addIssue R ni newId t1).issues.filter
      fun i => i.id != newId) = R.issues := by
    rw [addIssue_issues, List.filter_append]
    have h1 : R.issues.filter (fun i => i.id != newId) = R.issues :=
      List.filter_eq_self.mpr fun i hi => bne_iff_ne.mpr (hfresh i hi)
    rw [h1]
    simp
  have hkeep : R.pages.filter (fun p => R.issues.any fun i => i.page == p) =
      R.pages := by
    apply List.filter_eq_self.mpr
    intro p hp
    obtain ⟨i, hi, hpage⟩ := hused p hp
    exact List.any_eq_true.mpr ⟨i, hi, by simp [hpage]⟩
  rw [deleteIssue_pages, hfilter, addIssue_pages]
  by_cases hc : ni.page ∈ R.pages
  · have hct : R.pages.contains ni.page = true := by simpa using hc
    rw [if_pos hct]
    exact hkeep
  · have hcf : ¬ R.pages.contains ni.page = true := by simpa using hc
    rw [if_neg hcf, List.filter_append, hkeep]
    have hany : (R.issues.any fun i => i.page == ni.page) = false := by
      rw [List.any_eq_false]
      intro i hi
      simp only [beq_iff_eq]
      exact fun e => hc (e ▸ href i hi)
    simp [hany]

/-- Witness for the amended C3 at a concrete consistent report. -/
theorem C3_add_delete_pages_roundtrip_witness :
    (deleteIssue (addIssue (mkReport ["p"] [mkIssue "a" "p" "T" "t"])
        (mkNewIssue "q") "id1" "t1") "id1" "t2").pages =
      (mkReport ["p"] [mkIssue "a" "p" "T" "t"]).pages :=
  C3_add_delete_pages_roundtrip (mkReport ["p"] [mkIssue "a" "p" "T" "t"])
    (mkNewIssue "q") "id1" "t1" "t2" (by decide) (by decide) (by decide)

theorem updateIssue_issues (R : Report) (issueId : String) (u : IssueUpdate)
    (now : String) :
    (updateIssue R issueId u now).issues =
      R.issues.map fun issue =>
        if issue.id = issueId then applyUpdate issue u now else issue := rfl

theorem updateIssue_updatedAt (R : Report) (issueId : String)
    (u : IssueUpdate) (now : String) :
    (updateIssue R issueId u now).updatedAt = now := rfl

theorem updateIssue_pages (R : Report) (issueId : String) (u : IssueUpdate)
    (now : String) :
    (updateIssue R issueId u now).pages =
      match u.page with
      | none => R.pages
      | some newPage =>
        if newPage != "" &&
           (match R.issues.find? fun i => i.id = issueId with
            | some o => o.page != newPage
            | none => true) &&
           !(R.pages.contains newPage) then
          R.pages ++ [newPage]
        else R.pages := rfl

/-- C6 counterexample: an update payload that itself carries an id field
changes the stored id, because the object spread in updateIssue lets
updates.id override issue.id before updatedAt is reset. -/
theorem C6_counterexample :
    (updateIssue (mkReport ["p"] [mkIssue "a" "p" "T" "t"]) "a"
        { emptyUpdate with id := some "b" } "t2").issues.map Issue.id ≠
      (mkReport ["p"] [mkIssue "a" "p" "T" "t"]).issues.map Issue.id := by
  decide

/-- C6 amended: updateIssue preserves every issue id, element by element,
whenever the partial update does not itself carry an id field, which is
how every caller in the application invokes it. -/
theorem C6_updateIssue_preserves_ids (R : Report) (issueId : String)
    (u : IssueUpdate) (now : String) (hu : u.id = none) :
    (updateIssue R issueId u now).issues.map Issue.id =
      R.issues.map Issue.id := by
  rw [updateIssue_issues, List.map_map]
  have hcongr : (R.issues.map (Issue.id ∘ fun issue =>
      if issue.id = issueId then applyUpdate issue u now else issue)) =
      R.issues.map Issue.id := by
    apply List.map_congr_left
    intro i hi
    by_cases h : i.id = issueId
    · simp [h, applyUpdate, hu]
    · simp [h]
  exact hcongr

/-- Witness for the amended C6: an id-free update leaves the ids intact. -/
theorem C6_updateIssue_preserves_ids_witness :
    (updateIssue (mkReport ["p"] [mkIssue "a" "p" "T" "t"]) "a"
        emptyUpdate "t2").issues.map Issue.id =
      (mkReport ["p"] [mkIssue "a" "p" "T" "t"]).issues.map Issue.id :=
  C6_updateIssue_preserves_ids (mkReport ["p"] [mkIssue "a" "p" "T" "t"]) "a"
    emptyUpdate "t2" rfl

/-- C10 counterexample: with no matching issue and an update whose page is
the empty string (absent from pages), updateIssue does NOT append that
page, because the empty string is falsy in the page-append guard. -/
theorem C10_counterexample :
    (∀ i ∈ (mkReport ["p"] []).issues, i.id ≠ "z") ∧
    ({ emptyUpdate with page := some "" } : IssueUpdate).page = some "" ∧
    "" ∉ (mkReport ["p"] []).pages ∧
    (updateIssue (mkReport ["p"] []) "z"
        { emptyUpdate with page := some "" } "t2").pages ≠
      (mkReport ["p"] []).pages ++ [""] := by decide

/-- C10 amended: when issueId matches no issue, updateIssue leaves the
issues array element-wise unchanged yet still refreshes updatedAt, and a
NONEMPTY update page absent from pages is appended even though no issue
references it; the nonemptiness condition is forced by the falsy-string
guard in the source. -/
theorem C10_updateIssue_unmatched_id (R : Report) (issueId : String)
    (u : IssueUpdate) (now : String)
    (hno : ∀ i ∈ R.issues, i.id ≠ issueId) :
    (updateIssue R issueId u now).issues = R.issues ∧
    (updateIssue R issueId u now).updatedAt = now ∧
    (∀ p, u.page = some p → p ≠ "" → p ∉ R.pages →
      (updateIssue R issueId u now).pages = R.pages ++ [p]) := by
  refine ⟨?_, rfl, ?_⟩
  · rw [updateIssue_issues]
    have hcongr : (R.issues.map fun issue =>
        if issue.id = issueId then applyUpdate issue u now else issue) =
        R.issues.map (fun i => i) :=
      List.map_congr_left fun i hi => by simp [hno i hi]
    rw [hcongr, List.map_id']
  · intro p hp hne hmem
    have hfind : (R.issues.find? fun i => i.id = issueId) = none := by
      rw [List.find?_eq_none]
      intro i hi
      simp [hno i hi]
    rw [updateIssue_pages, hp]
    simp [hfind, bne_iff_ne.mpr hne, hmem]

/-- Witness for the amended C10: a nonempty fresh page is appended by an
update that matches no issue. -/
theorem C10_updateIssue_unmatched_id_witness :
    (updateIssue (mkReport ["p"] []) "z"
        { emptyUpdate with page := some "q" } "t2").pages = ["p"] ++ ["q"] :=
  (C10_updateIssue_unmatched_id (mkReport ["p"] []) "z"
    { emptyUpdate with page := some "q" } "t2" (by decide)).2.2 "q" rfl
    (by decide) (by decide)

theorem mergeReports_jiraConfig (gt : String → Int) (r1 r2 : Report)
    (t nid now : String) :
    (mergeReports gt r1 r2 t nid now).jiraConfig =
      if isCompleteConfig r1.jiraConfig then r1.jiraConfig
      else if isCompleteConfig r2.jiraConfig then r2.jiraConfig
      else r1.jiraConfig.orElse fun _ => r2.jiraConfig := rfl

/-- C5: the merged tracker config is report1's config when complete, else
report2's when complete, else report1's when present, else report2's
(possibly absent); completeness means all three credential fields are
present and nonempty. -/
theorem C5_mergeReports_config_selection (gt : String → Int) (r1 r2 : Report)
    (t nid now : String) :
    (mergeReports gt r1 r2 t nid now).jiraConfig =
      selectMergedConfig r1.jiraConfig r2.jiraConfig ∧
    (∀ c : Option JiraConfig,
      isCompleteConfig c = true ↔ isCompleteConfigSpec c) := by
  constructor
  · cases hc : r1.jiraConfig with
    | none =>
      simp [mergeReports_jiraConfig, selectMergedConfig, hc, Option.orElse]
    | some c =>
      simp [mergeReports_jiraConfig, selectMergedConfig, hc, Option.orElse]
  · intro c
    cases c with
    | none => simp [isCompleteConfig, isCompleteConfigSpec]
    | some cfg =>
      simp only [isCompleteConfig, isCompleteConfigSpec, Bool.and_eq_true,
        bne_iff_ne, ne_eq, Option.some.injEq, exists_eq_left']
      exact and_assoc

/-- C9 counterexample: at a request with no url the relay answers 400 with
the missing-url body, which is neither the reflected upstream response nor
the 500 error shape, so the two-branch disjunction of the claim fails. -/
theorem C9_counterexample :
    ¬ ((∃ r : UpstreamResponse,
          (Except.ok (⟨200, true, "OK", JSValue.null⟩ : UpstreamResponse) :
            Except String UpstreamResponse) = Except.ok r ∧
          proxyHandler ⟨none, none, none, none⟩
            (Except.ok ⟨200, true, "OK", JSValue.null⟩) =
            ⟨r.status, reflectBody r⟩) ∨
       (∃ msg : String,
          (Except.ok (⟨200, true, "OK", JSValue.null⟩ : UpstreamResponse) :
            Except String UpstreamResponse) = Except.error msg ∧
          proxyHandler ⟨none, none, none, none⟩
            (Except.ok ⟨200, true, "OK", JSValue.null⟩) =
            ⟨500, errorBody msg⟩)) := by
  rintro (⟨r, hr, hh⟩ | ⟨msg, hm, _⟩)
  · have hr' : (⟨200, true, "OK", JSValue.null⟩ : UpstreamResponse) = r :=
      Except.ok.inj hr
    have hst := congrArg RelayResponse.status hh
    rw [← hr'] at hst
    exact absurd hst (by decide)
  · cases hm

/-- C9 amended: the relay handler is a total function answering in exactly
one of three shapes: 400 with the missing-url body when the url is absent
or empty (falsy), the upstream response reflected with status, ok,
statusText and data unmodified when the forward resolves, and 500 with the
error payload when the forward throws. -/
theorem C9_proxyHandler_total_shapes (req : ProxyRequest)
    (fr : Except String UpstreamResponse) :
    ((req.url = none ∨ req.url = some "") →
      proxyHandler req fr = ⟨400, missingUrlBody⟩) ∧
    (∀ u r, req.url = some u → u ≠ "" → fr = Except.ok r →
      proxyHandler req fr = ⟨r.status, reflectBody r⟩) ∧
    (∀ u msg, req.url = some u → u ≠ "" → fr = Except.error msg →
      proxyHandler req fr = ⟨500, errorBody msg⟩) := by
  refine ⟨?_, ?_, ?_⟩
  · rintro (h | h) <;> simp [proxyHandler, h]
  · rintro u r hu hne rfl
    simp [proxyHandler, hu, hne]
  · rintro u msg hu hne rfl
    simp [proxyHandler, hu, hne]

/-- Witness for the amended C9: a successful forward is reflected as-is. -/
theorem C9_proxyHandler_total_shapes_witness :
    proxyHandler ⟨some "u1", none, none, none⟩
        (Except.ok (⟨200, true, "OK", JSValue.null⟩ : UpstreamResponse)) =
      ⟨200, reflectBody ⟨200, true, "OK", JSValue.null⟩⟩ :=
  (C9_proxyHandler_total_shapes ⟨some "u1", none, none, none⟩
    (Except.ok ⟨200, true, "OK", JSValue.null⟩)).2.1 "u1"
    ⟨200, true, "OK", JSValue.null⟩ rfl (by decide) rfl

theorem jsTypeof_eq_string_iff (v : JSValue) :
    jsTypeof v = "string" ↔ ∃ s, v = JSValue.str s := by
  cases v <;> simp [jsTypeof]

theorem isArrayJS_iff (v : JSValue) :
    isArrayJS v = true ↔ ∃ l, v = JSValue.arr l := by
  cases v <;> simp [isArrayJS]

/-- C7: validateReport accepts exactly the non-null plain objects whose id,
name, createdAt and updatedAt properties are strings and whose pages and
issues properties are arrays; the elements of the issues array are never
inspected, so replacing them by arbitrary (malformed) values does not
change the verdict. -/
theorem C7_validateReport_shallow (v : JSValue) :
    (validateReport v = true ↔ isValidReportSpec v) ∧
    (∀ (fields : List (String × JSValue)) (l l' : List JSValue),
      validateReport (JSValue.obj (("issues", JSValue.arr l) :: fields)) =
        validateReport (JSValue.obj (("issues", JSValue.arr l') :: fields))) := by
  constructor
  · cases v with
    | null => simp [validateReport, isValidReportSpec, jsTypeof, isNullJS]
    | undefined => simp [validateReport, isValidReportSpec, jsTypeof, isNullJS]
    | bool b => simp [validateReport, isValidReportSpec, jsTypeof, isNullJS]
    | num n => simp [validateReport, isValidReportSpec, jsTypeof, isNullJS]
    | str s => simp [validateReport, isValidReportSpec, jsTypeof, isNullJS]
    | arr l =>
      simp [validateReport, isValidReportSpec, jsTypeof, isNullJS, getProp]
    | obj fields =>
      have hcond : (jsTypeof (JSValue.obj fields) != "object" ||
          isNullJS (JSValue.obj fields)) = false := by
        simp [jsTypeof, isNullJS]
      unfold validateReport
      rw [hcond]
      simp only [Bool.false_eq_true, if_false, Bool.and_eq_true, beq_iff_eq,
        jsTypeof_eq_string_iff, isArrayJS_iff, isValidReportSpec]
      simp [and_assoc]
  · intro fields l l'
    simp [validateReport, jsTypeof, isNullJS, getProp, List.find?_cons,
      isArrayJS]

theorem wcagTagMatch_eq_some_iff (tag : String) (d1 d2 : Char)
    (ds : List Char) :
    wcagTagMatch tag = some (d1, d2, ds) ↔ criterionTagShape tag d1 d2 ds := by
  constructor
  · intro h
    unfold wcagTagMatch at h
    split at h
    · rename_i c1 c2 rest heq
      split at h
      · rename_i hcond
        injection h with h1
        obtain ⟨e1, e2, e3⟩ : c1 = d1 ∧ c2 = d2 ∧ rest = ds := by
          injection h1 with ha hb
          injection hb with hb hc
          exact ⟨ha, hb, hc⟩
        subst e1; subst e2; subst e3
        simp only [Bool.and_eq_true, List.all_eq_true] at hcond
        refine ⟨heq, hcond.1.1.1, hcond.1.1.2, ?_, hcond.2⟩
        intro hds
        rw [hds] at hcond
        simp at hcond
      · cases h
    · cases h
  · rintro ⟨htl, h1, h2, hne, hall⟩
    unfold wcagTagMatch
    rw [htl]
    have hemp : (!ds.isEmpty) = true := by
      cases ds with
      | nil => exact absurd rfl hne
      | cons a l => rfl
    have hcond : (d1.isDigit && d2.isDigit && !ds.isEmpty &&
        ds.all Char.isDigit) = true := by
      simp only [Bool.and_eq_true, List.all_eq_true]
      exact ⟨⟨⟨h1, h2⟩, hemp⟩, hall⟩
    simp [hcond]

theorem wcagTagMatch_none_iff (tag : String) :
    wcagTagMatch tag = none ↔ ¬ hasCriterionShape tag := by
  constructor
  · intro h hs
    obtain ⟨d1, d2, ds, hshape⟩ := hs
    rw [(wcagTagMatch_eq_some_iff tag d1 d2 ds).mpr hshape] at h
    cases h
  · intro h
    cases hm : wcagTagMatch tag with
    | none => rfl
    | some x =>
      obtain ⟨d1, d2, ds⟩ := x
      exact absurd ⟨d1, d2, ds, (wcagTagMatch_eq_some_iff tag d1 d2 ds).mp hm⟩ h

theorem extractCriterionNumber_append_none (pre rest : List String)
    (h : ∀ t ∈ pre, wcagTagMatch t = none) :
    extractCriterionNumber (pre ++ rest) = extractCriterionNumber rest := by
  induction pre with
  | nil => rfl
  | cons t pre ih =>
    have ht := h t (List.mem_cons_self t pre)
    simp only [List.cons_append, extractCriterionNumber, ht]
    exact ih fun s hs => h s (List.mem_cons_of_mem t hs)

/-- C8: extractCriterionNumber renders as a dotted criterion number the
first tag consisting of the wcag prefix followed by bare digits only (at
least three), returns none when no tag has that shape, and conformance
level tags such as wcag2aa never have the shape, since a letter follows
the digits. -/
theorem C8_extractCriterionNumber_first_numeric_tag :
    (∀ tags : List String, (∀ t ∈ tags, ¬ hasCriterionShape t) →
      extractCriterionNumber tags = none) ∧
    (∀ (pre : List String) (tag : String) (post : List String)
        (d1 d2 : Char) (ds : List Char),
      (∀ t ∈ pre, ¬ hasCriterionShape t) →
      criterionTagShape tag d1 d2 ds →
      extractCriterionNumber (pre ++ tag :: post) =
        some (dottedCriterion d1 d2 ds)) ∧
    ¬ hasCriterionShape "wcag2aa" := by
  have hnone : ∀ (l : List String), (∀ t ∈ l, ¬ hasCriterionShape t) →
      ∀ t ∈ l, wcagTagMatch t = none :=
    fun l h t ht => (wcagTagMatch_none_iff t).mpr (h t ht)
  refine ⟨?_, ?_, ?_⟩
  · intro tags h
    have hh := extractCriterionNumber_append_none tags [] (hnone tags h)
    simpa using hh
  · intro pre tag post d1 d2 ds hpre hshape
    rw [extractCriterionNumber_append_none pre (tag :: post) (hnone pre hpre)]
    simp only [extractCriterionNumber,
      (wcagTagMatch_eq_some_iff tag d1 d2 ds).mpr hshape]
  · intro hs
    obtain ⟨d1, d2, ds, hshape⟩ := hs
    have hm := (wcagTagMatch_eq_some_iff "wcag2aa" d1 d2 ds).mpr hshape
    have hn : wcagTagMatch "wcag2aa" = none := by decide
    rw [hn] at hm
    cases hm

/-- Witness for C8: the level tag wcag2aa is skipped and the numeric tag
wcag111 is rendered as 1.1.1. -/
theorem C8_extractCriterionNumber_first_numeric_tag_witness :
    extractCriterionNumber ["wcag2aa", "wcag111"] = some "1.1.1" := by
  have h2 := (C8_extractCriterionNumber_first_numeric_tag).2.1 ["wcag2aa"]
    "wcag111" [] '1' '1' ['1']
    (by
      intro t ht
      have he : t = "wcag2aa" := by simpa using ht
      rw [he]
      exact (C8_extractCriterionNumber_first_numeric_tag).2.2)
    (by unfold criterionTagShape; decide)
  exact h2.trans (by decide)

end Arm
